import Mathlib

/-!
Shallow embedding of src/canbusjs/src/canbus.js: the slcan frame codec
(canbus.frame, canbus.slcan.prototype._parseFrame, _packFrame) and the
stream reassembly loop (_serialRecvCallback).  Strings are modelled as
lists of characters, and the JavaScript Number string-conversion
semantics used by the parser are modelled explicitly.  The stream
decoder is modelled as a state-passing function that also reports the
frames handed to the receive callback and the exception, if any, that
escaped the receive handler (an uncaught throw aborts the rest of the
call's loop but leaves the already-performed state mutations in place).
-/

namespace Canbus

/-- Characters treated as whitespace by the JavaScript Number conversion
(the StrWhiteSpace and LineTerminator character classes). -/
def charIsSpace (c : Char) : Bool :=
  c.toNat = 9 || c.toNat = 10 || c.toNat = 11 || c.toNat = 12 || c.toNat = 13 ||
  c.toNat = 32 || c.toNat = 160 || c.toNat = 0x1680 ||
  (0x2000 ≤ c.toNat && c.toNat ≤ 0x200A) ||
  c.toNat = 0x2028 || c.toNat = 0x2029 || c.toNat = 0x202F ||
  c.toNat = 0x205F || c.toNat = 0x3000 || c.toNat = 0xFEFF

/-- Value of one hexadecimal digit character, case-insensitive. -/
def hexCharVal (c : Char) : Option Nat :=
  if 48 ≤ c.toNat ∧ c.toNat ≤ 57 then some (c.toNat - 48)
  else if 97 ≤ c.toNat ∧ c.toNat ≤ 102 then some (c.toNat - 87)
  else if 65 ≤ c.toNat ∧ c.toNat ≤ 70 then some (c.toNat - 55)
  else none

/-- Left fold computing the value of a hexadecimal digit string,
`none` as soon as a non-hexadecimal character is met. -/
def hexValFrom (acc : Nat) : List Char → Option Nat
  | [] => some acc
  | c :: cs =>
    match hexCharVal c with
    | none => none
    | some v => hexValFrom (acc * 16 + v) cs

/-- Strip trailing whitespace characters. -/
def stripTrailingSpace (l : List Char) : List Char :=
  (l.reverse.dropWhile charIsSpace).reverse

/-- JavaScript `Number("0x" + s)`: the conversion trims whitespace at both
ends of the whole string (the leading end starts with the non-space
prelude `0x`, so only the trailing trim is observable), and the remaining
digit part must be a nonempty run of hexadecimal digits; any other
content, or no digits at all, gives NaN, modelled as `none`. -/
def jsNumberHex (l : List Char) : Option Nat :=
  let t := stripTrailingSpace l
  if t = [] then none else hexValFrom 0 t

/-- JavaScript `Number(s)` restricted to the result of `substr(pos, 1)`,
which is the empty string (modelled as `none`) or one character: the
empty string and pure whitespace convert to 0, a decimal digit to its
value, anything else to NaN (modelled as `none` in the result). -/
def jsDlcVal : Option Char → Option Nat
  | none => some 0
  | some c =>
    if charIsSpace c then some 0
    else if 48 ≤ c.toNat ∧ c.toNat ≤ 57 then some (c.toNat - 48)
    else none

/-- canbus.frame: field-for-field model of the constructor's properties.
`id_ext_id` models the stray property created by the assignment
`res.id_ext_id = is_ext_id` in `_parseFrame` (absent, i.e. `none`, on a
frame built by the constructor alone). -/
structure Frame where
  id : Nat
  dlc : Nat
  timestamp : Option Nat
  data : List Nat
  is_ext_id : Bool
  is_remote : Bool
  id_ext_id : Option Bool
deriving DecidableEq, Repr

/-- `new canbus.frame(id)`. -/
def frameNew (id : Nat) : Frame :=
  { id := id, dlc := 0, timestamp := none, data := [], is_ext_id := false,
    is_remote := false, id_ext_id := none }

/-- canbus.slcan.STD_ID_LEN. -/
def STD_ID_LEN : Nat := 3

/-- canbus.slcan.EXT_ID_LEN. -/
def EXT_ID_LEN : Nat := 8

/-- The errors thrown by `_parseFrame`, by kind. -/
inductive ParseError where
  | InvalidFrameType
  | InvalidIdentifier
  | InvalidDlc
  | InvalidDataByte (i : Nat)
deriving DecidableEq, Repr

/-- `str.substr(pos, len)` on the list-of-characters model of strings. -/
def substr (s : List Char) (pos len : Nat) : List Char :=
  (s.drop pos).take len

/-- The four-way dispatch on `str[0]` at the top of `_parseFrame`
(an out-of-range access yields `undefined`, which falls through to the
throwing branch). -/
def frameTypeOf : Option Char → Option (Bool × Bool)
  | some 't' => some (false, false)
  | some 'r' => some (false, true)
  | some 'T' => some (true, false)
  | some 'R' => some (true, true)
  | _ => none

/-- The data-byte loop of `_parseFrame`: byte `i` is read from
`substr(2 + idLen + i * 2, 2)` and converted with `Number("0x" + ...)`;
the first NaN aborts the loop with the byte's index. -/
def readData (s : List Char) (idLen : Nat) : Nat → Nat → Except ParseError (List Nat)
  | _, 0 => .ok []
  | i, k + 1 =>
    match jsNumberHex (substr s (2 + idLen + i * 2) 2) with
    | none => .error (.InvalidDataByte i)
    | some b =>
      match readData s idLen (i + 1) k with
      | .error e => .error e
      | .ok bs => .ok (b :: bs)

/-- canbus.slcan.prototype._parseFrame.  Note that the data loop runs for
remote frames as well (the source does not guard it on `is_remote`), and
that the result's `is_ext_id` field keeps the constructor default `false`
because the source assigns the decoded flag to the property `id_ext_id`. -/
def parseFrame (s : List Char) : Except ParseError Frame :=
  match frameTypeOf s.head? with
  | none => .error .InvalidFrameType
  | some (ext, rem) =>
    let idLen := if ext then EXT_ID_LEN else STD_ID_LEN
    match jsNumberHex (substr s 1 idLen) with
    | none => .error .InvalidIdentifier
    | some id =>
      match jsDlcVal (substr s (1 + idLen) 1).head? with
      | none => .error .InvalidDlc
      | some dlc =>
        if 8 < dlc then .error .InvalidDlc
        else
          match readData s idLen 0 dlc with
          | .error e => .error e
          | .ok data =>
            .ok { frameNew id with
                    id_ext_id := some ext,
                    is_remote := rem,
                    dlc := dlc,
                    data := data }

/-- Digit character used by JavaScript Number.prototype.toString:
0-9 then lowercase a-f. -/
def jsDigitChar (d : Nat) : Char :=
  if d < 10 then Char.ofNat (48 + d) else Char.ofNat (87 + d)

/-- Digits of `n` in the given base, most significant first.  The
definition is fuel-indexed so that it is structural; initial fuel `n`
always suffices because `n / base < n` whenever `base ≤ n`. -/
def natToBaseAux (base : Nat) : Nat → Nat → List Char
  | 0, n => [jsDigitChar n]
  | fuel + 1, n =>
    if n < base then [jsDigitChar n]
    else natToBaseAux base fuel (n / base) ++ [jsDigitChar (n % base)]

/-- JavaScript `n.toString(16)` for a nonnegative integer. -/
def natToHex (n : Nat) : List Char := natToBaseAux 16 n n

/-- JavaScript `n.toString()` for a nonnegative integer. -/
def natToDec (n : Nat) : List Char := natToBaseAux 10 n n

/-- JavaScript String.prototype.toUpperCase on one character. -/
def jsToUpperChar (c : Char) : Char :=
  if 97 ≤ c.toNat ∧ c.toNat ≤ 122 then Char.ofNat (c.toNat - 32) else c

/-- The two characters `_packFrame` appends for one data byte:
`("0" + b.toString(16).toUpperCase()).substr(length - 2)`. -/
def enc2 (b : Nat) : List Char :=
  let byte_str := '0' :: (natToHex b).map jsToUpperChar
  byte_str.drop (byte_str.length - 2)

/-- The data-byte loop of `_packFrame`; `none` models the TypeError thrown
when `frame.data[i]` is `undefined`, that is when `i ≥ data.length`. -/
def packData (data : List Nat) : Nat → Nat → Option (List Char)
  | _, 0 => some []
  | i, k + 1 =>
    match data[i]? with
    | none => none
    | some b =>
      match packData data (i + 1) k with
      | none => none
      | some rest => some (enc2 b ++ rest)

/-- canbus.slcan.prototype._packFrame.  The identifier is rendered in
lowercase hexadecimal padded on the left with `"0000000"` and truncated
to the last 3 or 8 characters; the data loop runs for remote frames as
well (the source does not guard it on `is_remote`). -/
def packFrame (f : Frame) : Option (List Char) :=
  let res0 := if f.is_remote then 'r' else 't'
  let res1 := if f.is_ext_id then jsToUpperChar res0 else res0
  let id_str := "0000000".toList ++ natToHex f.id
  let idPart :=
    if f.is_ext_id then id_str.drop (id_str.length - EXT_ID_LEN)
    else id_str.drop (id_str.length - STD_ID_LEN)
  match packData f.data 0 f.dlc with
  | none => none
  | some dataPart =>
    some (res1 :: idPart ++ natToDec f.dlc ++ dataPart ++ ['\r'])

/-- The mutable receive state of a canbus.slcan object:
`_recv_count` and `_recv_str`. -/
structure SlcanState where
  recv_count : Nat
  recv_str : List Char
deriving DecidableEq, Repr

/-- The receive state as initialised by the canbus.slcan constructor. -/
def initState : SlcanState := { recv_count := 0, recv_str := [] }

/-- Result of one call to `_serialRecvCallback`: the state left behind,
the frames passed to `recvFrameCallback` in order, and the parse
exception (if any) that escaped the handler. -/
structure FeedResult where
  state : SlcanState
  frames : List Frame
  err : Option ParseError
deriving DecidableEq, Repr

/-- canbus.slcan.prototype._serialRecvCallback on one chunk of bytes,
with `now` standing for `Date.now()`.  On a terminator the buffer is
cleared before parsing; a parse failure therefore leaves a clean buffer
but, being an uncaught exception, aborts the processing of the rest of
the chunk. -/
def serialRecvCallback (now : Nat) : SlcanState → List Char → FeedResult
  | st, [] => ⟨st, [], none⟩
  | st, c :: rest =>
    if c = '\r' then
      match parseFrame st.recv_str with
      | .error e => ⟨⟨0, []⟩, [], some e⟩
      | .ok f =>
        let r := serialRecvCallback now ⟨0, []⟩ rest
        ⟨r.state, { f with timestamp := some now } :: r.frames, r.err⟩
    else
      serialRecvCallback now ⟨st.recv_count + 1, st.recv_str ++ [c]⟩ rest

/-- Result of a sequence of calls to `_serialRecvCallback`:
frames delivered and exceptions that escaped each call.  An uncaught
exception in one browser event callback does not prevent later
onReceive events from being delivered, so feeding continues with the
state the aborted call left behind. -/
structure FeedManyResult where
  state : SlcanState
  frames : List Frame
  errs : List ParseError
deriving DecidableEq, Repr

/-- Feed several chunks through `_serialRecvCallback`, one call each. -/
def feedChunks (now : Nat) : SlcanState → List (List Char) → FeedManyResult
  | st, [] => ⟨st, [], []⟩
  | st, ch :: rest =>
    let r1 := serialRecvCallback now st ch
    let r2 := feedChunks now r1.state rest
    ⟨r2.state, r1.frames ++ r2.frames, r1.err.toList ++ r2.errs⟩

/-! ### Helper lemmas about the JavaScript number conversions -/

theorem hexValFrom_append (a b : List Char) :
    ∀ acc, hexValFrom acc (a ++ b) =
      (hexValFrom acc a).bind fun m => hexValFrom m b := by
  induction a with
  | nil => intro acc; rfl
  | cons c cs ih =>
    intro acc
    show hexValFrom acc (c :: (cs ++ b)) = _
    simp only [hexValFrom]
    cases hexCharVal c with
    | none => rfl
    | some v => exact ih _

theorem stripTrailingSpace_eq_self (l : List Char)
    (h : ∀ c ∈ l, charIsSpace c = false) : stripTrailingSpace l = l := by
  unfold stripTrailingSpace
  cases hr : l.reverse with
  | nil => simp [List.reverse_eq_nil_iff.mp hr]
  | cons c cs =>
    have hc : c ∈ l := by
      rw [← List.mem_reverse, hr]
      exact List.mem_cons_self _ _
    rw [List.dropWhile_cons, h c hc]
    simp only [Bool.false_eq_true, if_false]
    rw [← hr, List.reverse_reverse]

theorem jsDigitChar_good (d : Nat) (h : d < 16) :
    hexCharVal (jsDigitChar d) = some d ∧ charIsSpace (jsDigitChar d) = false ∧
      hexCharVal (jsToUpperChar (jsDigitChar d)) = some d ∧
      charIsSpace (jsToUpperChar (jsDigitChar d)) = false := by
  interval_cases d <;> exact ⟨by decide, by decide, by decide, by decide⟩

theorem natToBaseAux_lt (base fuel n : Nat) (h : n < base) :
    natToBaseAux base fuel n = [jsDigitChar n] := by
  cases fuel with
  | zero => rfl
  | succ k => simp [natToBaseAux, h]

theorem natToBaseAux_ne_nil (base fuel n : Nat) : natToBaseAux base fuel n ≠ [] := by
  cases fuel with
  | zero => simp [natToBaseAux]
  | succ k =>
    by_cases h : n < base <;> simp [natToBaseAux, h]

theorem natToBaseAux16_spec :
    ∀ fuel n, n ≤ fuel →
      (∀ c ∈ natToBaseAux 16 fuel n, ∃ d, d < 16 ∧ c = jsDigitChar d) ∧
      (∀ acc, hexValFrom acc (natToBaseAux 16 fuel n) =
        some (acc * 16 ^ (natToBaseAux 16 fuel n).length + n)) := by
  intro fuel
  induction fuel with
  | zero =>
    intro n hn
    have hn0 : n = 0 := Nat.le_zero.mp hn
    subst hn0
    refine ⟨fun c hc => ⟨0, by omega, ?_⟩, fun acc => ?_⟩
    · simpa [natToBaseAux] using hc
    · simp [natToBaseAux, hexValFrom, (jsDigitChar_good 0 (by omega)).1]
  | succ k ih =>
    intro n hn
    by_cases h16 : n < 16
    · rw [natToBaseAux_lt 16 (k + 1) n h16]
      refine ⟨fun c hc => ⟨n, h16, by simpa using hc⟩, fun acc => ?_⟩
      simp [hexValFrom, (jsDigitChar_good n h16).1]
    · have hdiv : n / 16 ≤ k := by omega
      obtain ⟨ihc, ihv⟩ := ih (n / 16) hdiv
      have heq : natToBaseAux 16 (k + 1) n =
          natToBaseAux 16 k (n / 16) ++ [jsDigitChar (n % 16)] := by
        simp [natToBaseAux, h16]
      rw [heq]
      constructor
      · intro c hc
        rcases List.mem_append.mp hc with h | h
        · exact ihc c h
        · exact ⟨n % 16, by omega, by simpa using h⟩
      · intro acc
        rw [hexValFrom_append, ihv acc]
        simp only [Option.some_bind]
        simp only [hexValFrom, (jsDigitChar_good (n % 16) (by omega)).1]
        rw [List.length_append, List.length_singleton]
        congr 1
        calc (acc * 16 ^ (natToBaseAux 16 k (n / 16)).length + n / 16) * 16 + n % 16
            = acc * (16 ^ (natToBaseAux 16 k (n / 16)).length * 16) +
                (16 * (n / 16) + n % 16) := by ring
          _ = acc * 16 ^ ((natToBaseAux 16 k (n / 16)).length + 1) + n := by
                rw [Nat.div_add_mod, pow_succ]

theorem natToHex_chars (n : Nat) :
    ∀ c ∈ natToHex n, ∃ d, d < 16 ∧ c = jsDigitChar d :=
  (natToBaseAux16_spec n n le_rfl).1

theorem natToHex_val (n : Nat) (acc : Nat) :
    hexValFrom acc (natToHex n) = some (acc * 16 ^ (natToHex n).length + n) :=
  (natToBaseAux16_spec n n le_rfl).2 acc

theorem hexValFrom_replicate_zero :
    ∀ (k : Nat) (acc : Nat),
      hexValFrom acc (List.replicate k '0') = some (acc * 16 ^ k) := by
  intro k
  induction k with
  | zero => intro acc; simp [hexValFrom]
  | succ m ih =>
    intro acc
    rw [List.replicate_succ]
    show hexValFrom acc ('0' :: _) = _
    simp only [hexValFrom, show hexCharVal '0' = some 0 from by decide]
    rw [ih (acc * 16 + 0)]
    congr 1
    rw [pow_succ]
    ring

theorem natToBaseAux16_length_le :
    ∀ fuel n k, n ≤ fuel → 1 ≤ k → n < 16 ^ k →
      (natToBaseAux 16 fuel n).length ≤ k := by
  intro fuel
  induction fuel with
  | zero =>
    intro n k hn hk _
    have hn0 : n = 0 := by omega
    subst hn0
    simpa [natToBaseAux] using hk
  | succ m ih =>
    intro n k hn hk hnk
    by_cases h16 : n < 16
    · rw [natToBaseAux_lt 16 (m + 1) n h16]
      simpa using hk
    · have hk2 : 2 ≤ k := by
        by_contra hc
        have hk1 : k = 1 := by omega
        subst hk1
        simp [pow_one] at hnk
        omega
      have hpow : 16 ^ k = 16 ^ (k - 1) * 16 := by
        conv_lhs => rw [show k = (k - 1) + 1 by omega]
        rw [pow_succ]
      have hd : n / 16 < 16 ^ (k - 1) := by
        rw [Nat.div_lt_iff_lt_mul (by omega : (0:Nat) < 16)]
        omega
      have hlen := ih (n / 16) (k - 1) (by omega) (by omega) hd
      have heq : natToBaseAux 16 (m + 1) n =
          natToBaseAux 16 m (n / 16) ++ [jsDigitChar (n % 16)] := by
        simp [natToBaseAux, h16]
      rw [heq, List.length_append, List.length_singleton]
      omega

theorem natToHex_length_le (n k : Nat) (hk : 1 ≤ k) (h : n < 16 ^ k) :
    (natToHex n).length ≤ k :=
  natToBaseAux16_length_le n n k le_rfl hk h

theorem jsNumberHex_zeros_hex (k n : Nat) :
    jsNumberHex (List.replicate k '0' ++ natToHex n) = some n := by
  have hns : ∀ c ∈ List.replicate k '0' ++ natToHex n, charIsSpace c = false := by
    intro c hc
    rcases List.mem_append.mp hc with h | h
    · rw [List.eq_of_mem_replicate h]; decide
    · obtain ⟨d, hd, rfl⟩ := natToHex_chars n c h
      exact (jsDigitChar_good d hd).2.1
  unfold jsNumberHex
  rw [stripTrailingSpace_eq_self _ hns]
  have hne : List.replicate k '0' ++ natToHex n ≠ [] := by
    intro hemp
    exact natToBaseAux_ne_nil 16 n n (List.append_eq_nil.mp hemp).2
  rw [if_neg hne, hexValFrom_append, hexValFrom_replicate_zero]
  simp only [Option.some_bind, Nat.zero_mul]
  rw [natToHex_val]
  simp

theorem jsNumberHex_two_digits (d1 d0 : Nat) (h1 : d1 < 16) (h0 : d0 < 16) :
    jsNumberHex [jsToUpperChar (jsDigitChar d1), jsToUpperChar (jsDigitChar d0)] =
      some (16 * d1 + d0) := by
  obtain ⟨-, -, hv1, hs1⟩ := jsDigitChar_good d1 h1
  obtain ⟨-, -, hv0, hs0⟩ := jsDigitChar_good d0 h0
  unfold jsNumberHex
  rw [stripTrailingSpace_eq_self]
  · rw [if_neg (by simp)]
    simp only [hexValFrom, hv1, hv0]
    congr 1
    ring
  · intro c hc
    simp only [List.mem_cons, List.mem_singleton] at hc
    rcases hc with rfl | rfl | h
    · exact hs1
    · exact hs0
    · simp at h

theorem jsNumberHex_zero_digit (d : Nat) (h : d < 16) :
    jsNumberHex ['0', jsToUpperChar (jsDigitChar d)] = some d := by
  obtain ⟨-, -, hv, hs⟩ := jsDigitChar_good d h
  unfold jsNumberHex
  rw [stripTrailingSpace_eq_self]
  · rw [if_neg (by simp)]
    simp only [hexValFrom, show hexCharVal '0' = some 0 from by decide, hv]
    congr 1
    ring
  · intro c hc
    simp only [List.mem_cons, List.mem_singleton] at hc
    rcases hc with rfl | rfl | h
    · decide
    · exact hs
    · simp at h

theorem enc2_spec (b : Nat) (hb : b < 256) :
    (enc2 b).length = 2 ∧ jsNumberHex (enc2 b) = some b := by
  by_cases h16 : b < 16
  · have hhex : natToHex b = [jsDigitChar b] := natToBaseAux_lt 16 b b h16
    have he : enc2 b = ['0', jsToUpperChar (jsDigitChar b)] := by
      simp [enc2, hhex]
    rw [he]
    exact ⟨rfl, jsNumberHex_zero_digit b h16⟩
  · obtain ⟨m, rfl⟩ : ∃ m, b = m + 1 := ⟨b - 1, by omega⟩
    have hd : (m + 1) / 16 < 16 := by omega
    have hhex : natToHex (m + 1) =
        [jsDigitChar ((m + 1) / 16), jsDigitChar ((m + 1) % 16)] := by
      unfold natToHex
      simp only [natToBaseAux, if_neg (by omega : ¬ m + 1 < 16)]
      rw [natToBaseAux_lt 16 m ((m + 1) / 16) hd]
      rfl
    have he : enc2 (m + 1) = [jsToUpperChar (jsDigitChar ((m + 1) / 16)),
        jsToUpperChar (jsDigitChar ((m + 1) % 16))] := by
      simp [enc2, hhex]
    rw [he]
    refine ⟨rfl, ?_⟩
    rw [jsNumberHex_two_digits _ _ hd (by omega)]
    congr 1
    omega

/-! ### Positioning lemmas for the parser -/

theorem substr_append_of_le (s t : List Char) (pos len : Nat)
    (h : pos + len ≤ s.length) : substr (s ++ t) pos len = substr s pos len := by
  unfold substr
  rw [List.drop_append_of_le_length (by omega)]
  rw [List.take_append_of_le_length (by rw [List.length_drop]; omega)]

theorem readData_ne_invalidDlc (s : List Char) (idLen : Nat) :
    ∀ k i, readData s idLen i k ≠ .error .InvalidDlc := by
  intro k
  induction k with
  | zero => intro i; simp [readData]
  | succ m ih =>
    intro i
    simp only [readData]
    cases jsNumberHex (substr s (2 + idLen + i * 2) 2) with
    | none => simp
    | some b =>
      cases hr : readData s idLen (i + 1) m with
      | error e =>
        have h2 := ih (i + 1)
        rw [hr] at h2
        simpa using h2
      | ok bs => simp

theorem readData_append (s t : List Char) (idLen : Nat) :
    ∀ k i, 2 + idLen + (i + k) * 2 ≤ s.length →
      readData (s ++ t) idLen i k = readData s idLen i k := by
  intro k
  induction k with
  | zero => intro i _; rfl
  | succ m ih =>
    intro i hlen
    simp only [readData]
    rw [substr_append_of_le s t (2 + idLen + i * 2) 2 (by omega)]
    rw [ih (i + 1) (by omega)]

theorem readData_join (s : List Char) (idLen : Nat) :
    ∀ (bytes : List Nat), (∀ b ∈ bytes, b < 256) →
      ∀ i, s.drop (2 + idLen + i * 2) = (bytes.map enc2).flatten →
        readData s idLen i bytes.length = .ok bytes := by
  intro bytes
  induction bytes with
  | nil => intro _ i _; rfl
  | cons b rest ih =>
    intro hb i hdrop
    have hb256 : b < 256 := hb b (List.mem_cons_self _ _)
    obtain ⟨hlen2, hval⟩ := enc2_spec b hb256
    have hsub : substr s (2 + idLen + i * 2) 2 = enc2 b := by
      unfold substr
      rw [hdrop]
      simp only [List.map_cons, List.flatten_cons]
      rw [List.take_append_of_le_length (by omega)]
      rw [← hlen2, List.take_length]
    have hdrop2 : s.drop (2 + idLen + (i + 1) * 2) = (rest.map enc2).flatten := by
      have heq : 2 + idLen + (i + 1) * 2 = (2 + idLen + i * 2) + 2 := by ring
      rw [heq, ← List.drop_drop, hdrop]
      simp only [List.map_cons, List.flatten_cons]
      rw [List.drop_append_of_le_length (by omega), ← hlen2, List.drop_length]
      simp
    simp only [List.length_cons, readData, hsub, hval]
    rw [ih (fun x hx => hb x (List.mem_cons_of_mem _ hx)) (i + 1) hdrop2]

theorem packData_all (data : List Nat) :
    ∀ k i, i + k ≤ data.length →
      packData data i k = some ((((data.drop i).take k).map enc2).flatten) := by
  intro k
  induction k with
  | zero => intro i _; simp [packData]
  | succ m ih =>
    intro i hik
    have hi : i < data.length := by omega
    simp only [packData]
    rw [List.getElem?_eq_getElem hi, ih (i + 1) (by omega)]
    simp only [Option.some.injEq]
    rw [List.drop_eq_getElem_cons hi, List.take_succ_cons]
    simp

theorem jsDlcVal_digit (d : Nat) (h : d ≤ 9) :
    jsDlcVal (some (jsDigitChar d)) = some d := by
  interval_cases d <;> decide

theorem parseFrame_std_shape (rem : Bool) (idPart : List Char) (idv dlc : Nat)
    (bytes : List Nat) (hlen : idPart.length = 3)
    (hid : jsNumberHex idPart = some idv) (hdlc : dlc ≤ 8)
    (hblen : bytes.length = dlc) (hb : ∀ b ∈ bytes, b < 256) :
    parseFrame ((if rem then 'r' else 't') ::
        (idPart ++ [jsDigitChar dlc] ++ (bytes.map enc2).flatten)) =
      .ok ⟨idv, dlc, none, bytes, false, rem, some false⟩ := by
  have hsub1 : substr ((if rem then 'r' else 't') ::
      (idPart ++ [jsDigitChar dlc] ++ (bytes.map enc2).flatten)) 1 STD_ID_LEN = idPart := by
    show (idPart ++ [jsDigitChar dlc] ++ (bytes.map enc2).flatten).take STD_ID_LEN = idPart
    rw [List.append_assoc, show STD_ID_LEN = idPart.length from by rw [hlen]; rfl,
      List.take_left]
  have hsub2 : substr ((if rem then 'r' else 't') ::
      (idPart ++ [jsDigitChar dlc] ++ (bytes.map enc2).flatten)) (1 + STD_ID_LEN) 1 =
      [jsDigitChar dlc] := by
    show ((idPart ++ [jsDigitChar dlc] ++ (bytes.map enc2).flatten).drop
      STD_ID_LEN).take 1 = [jsDigitChar dlc]
    rw [List.append_assoc, show STD_ID_LEN = idPart.length from by rw [hlen]; rfl,
      List.drop_left]
    rfl
  have hread : readData ((if rem then 'r' else 't') ::
      (idPart ++ [jsDigitChar dlc] ++ (bytes.map enc2).flatten)) STD_ID_LEN 0 dlc =
      .ok bytes := by
    have h0 := readData_join ((if rem then 'r' else 't') ::
        (idPart ++ [jsDigitChar dlc] ++ (bytes.map enc2).flatten)) STD_ID_LEN bytes hb 0 (by
      show (idPart ++ [jsDigitChar dlc] ++ (bytes.map enc2).flatten).drop
        (1 + STD_ID_LEN + 0 * 2) = (bytes.map enc2).flatten
      rw [show 1 + STD_ID_LEN + 0 * 2 = (idPart ++ [jsDigitChar dlc]).length from by
        simp [hlen, STD_ID_LEN]]
      rw [List.drop_left])
    rw [hblen] at h0
    exact h0
  have htype : frameTypeOf ((if rem then 'r' else 't') ::
      (idPart ++ [jsDigitChar dlc] ++ (bytes.map enc2).flatten)).head? =
      some (false, rem) := by
    cases rem <;> rfl
  unfold parseFrame
  rw [htype]
  simp only [Bool.false_eq_true, if_false, hsub1, hid, hsub2, List.head?_cons,
    jsDlcVal_digit dlc (by omega : dlc ≤ 9), if_neg (by omega : ¬ 8 < dlc), hread]
  rfl

theorem natToDec_digit (d : Nat) (h : d ≤ 9) : natToDec d = [jsDigitChar d] :=
  natToBaseAux_lt 10 d d (by omega)

theorem substr_cons_of_pos (c : Char) (s : List Char) (pos len : Nat)
    (h : 0 < pos) : substr (c :: s) pos len = substr s (pos - 1) len := by
  obtain ⟨p, rfl⟩ : ∃ p, pos = p + 1 := ⟨pos - 1, by omega⟩
  rfl

theorem readData_cons_eq (c c2 : Char) (s : List Char) (idLen : Nat) :
    ∀ k i, readData (c :: s) idLen i k = readData (c2 :: s) idLen i k := by
  intro k
  induction k with
  | zero => intro i; rfl
  | succ m ih =>
    intro i
    simp only [readData]
    rw [substr_cons_of_pos c s _ _ (by omega), substr_cons_of_pos c2 s _ _ (by omega)]
    rw [ih (i + 1)]

theorem parseFrame_build (s : List Char) (ext rem : Bool) (idv dlc : Nat)
    (data : List Nat) (hc : frameTypeOf s.head? = some (ext, rem))
    (hid : jsNumberHex (substr s 1 (if ext then EXT_ID_LEN else STD_ID_LEN)) =
      some idv)
    (hdlc : jsDlcVal
      (substr s (1 + (if ext then EXT_ID_LEN else STD_ID_LEN)) 1).head? = some dlc)
    (h8 : ¬ 8 < dlc)
    (hrd : readData s (if ext then EXT_ID_LEN else STD_ID_LEN) 0 dlc = .ok data) :
    parseFrame s = .ok ⟨idv, dlc, none, data, false, rem, some ext⟩ := by
  unfold parseFrame
  rw [hc]
  simp only [hid, hdlc, if_neg h8, hrd]
  rfl

theorem parseFrame_inv (s : List Char) (ext rem : Bool) (f : Frame)
    (hc : frameTypeOf s.head? = some (ext, rem))
    (h : parseFrame s = .ok f) :
    ∃ idv,
      jsNumberHex (substr s 1 (if ext then EXT_ID_LEN else STD_ID_LEN)) =
        some idv ∧
      jsDlcVal
        (substr s (1 + (if ext then EXT_ID_LEN else STD_ID_LEN)) 1).head? =
        some f.dlc ∧
      ¬ 8 < f.dlc ∧
      readData s (if ext then EXT_ID_LEN else STD_ID_LEN) 0 f.dlc = .ok f.data ∧
      f = ⟨idv, f.dlc, none, f.data, false, rem, some ext⟩ := by
  unfold parseFrame at h
  rw [hc] at h
  simp only [] at h
  split at h
  · exact absurd h (by simp)
  · rename_i idv hid
    split at h
    · exact absurd h (by simp)
    · rename_i dlc hdlc
      split at h
      · exact absurd h (by simp)
      · rename_i h8
        split at h
        · exact absurd h (by simp)
        · rename_i data hrd
          injection h with hf
          subst hf
          exact ⟨idv, hid, hdlc, h8, hrd, rfl⟩

/-! ### Lemmas about the stream decoder -/

theorem serialRecv_cr_error (now : Nat) (st : SlcanState) (rest : List Char)
    (e : ParseError) (hp : parseFrame st.recv_str = .error e) :
    serialRecvCallback now st ('\r' :: rest) = ⟨⟨0, []⟩, [], some e⟩ := by
  simp [serialRecvCallback, hp]

theorem serialRecv_cr_ok (now : Nat) (st : SlcanState) (rest : List Char)
    (f : Frame) (hp : parseFrame st.recv_str = .ok f) :
    serialRecvCallback now st ('\r' :: rest) =
      ⟨(serialRecvCallback now ⟨0, []⟩ rest).state,
       { f with timestamp := some now } ::
         (serialRecvCallback now ⟨0, []⟩ rest).frames,
       (serialRecvCallback now ⟨0, []⟩ rest).err⟩ := by
  simp [serialRecvCallback, hp]

theorem serialRecv_cons_ne (now : Nat) (st : SlcanState) (c : Char)
    (rest : List Char) (hc : ¬ c = '\r') :
    serialRecvCallback now st (c :: rest) =
      serialRecvCallback now ⟨st.recv_count + 1, st.recv_str ++ [c]⟩ rest := by
  simp [serialRecvCallback, hc]

theorem serialRecv_append_err (now : Nat) :
    ∀ (a : List Char) (st st1 : SlcanState) (fs : List Frame) (e : ParseError)
      (b : List Char),
      serialRecvCallback now st a = ⟨st1, fs, some e⟩ →
      serialRecvCallback now st (a ++ b) = ⟨st1, fs, some e⟩ := by
  intro a
  induction a with
  | nil =>
    intro st st1 fs e b h
    have h2 : (⟨st, [], none⟩ : FeedResult) = ⟨st1, fs, some e⟩ := h
    injection h2 with ha hb hcE
    exact absurd hcE (by simp)
  | cons c cs ih =>
    intro st st1 fs e b h
    rw [List.cons_append]
    by_cases hc : c = '\r'
    · subst hc
      cases hp : parseFrame st.recv_str with
      | error e2 =>
        rw [serialRecv_cr_error now st cs e2 hp] at h
        rw [serialRecv_cr_error now st (cs ++ b) e2 hp]
        exact h
      | ok f =>
        rw [serialRecv_cr_ok now st cs f hp] at h
        rw [serialRecv_cr_ok now st (cs ++ b) f hp]
        rcases hr : serialRecvCallback now ⟨0, []⟩ cs with ⟨rs, rf, re⟩
        rw [hr] at h
        simp only [FeedResult.mk.injEq] at h
        obtain ⟨h1, h2, h3⟩ := h
        rw [ih ⟨0, []⟩ rs rf e b (by rw [hr, ← h3])]
        subst h1
        subst h2
        rfl
    · rw [serialRecv_cons_ne now st c cs hc] at h
      rw [serialRecv_cons_ne now st c (cs ++ b) hc]
      exact ih _ _ _ _ _ h

theorem serialRecv_append_ok (now : Nat) :
    ∀ (a : List Char) (st st1 : SlcanState) (fs : List Frame) (b : List Char),
      serialRecvCallback now st a = ⟨st1, fs, none⟩ →
      serialRecvCallback now st (a ++ b) =
        ⟨(serialRecvCallback now st1 b).state,
         fs ++ (serialRecvCallback now st1 b).frames,
         (serialRecvCallback now st1 b).err⟩ := by
  intro a
  induction a with
  | nil =>
    intro st st1 fs b h
    have h2 : (⟨st, [], none⟩ : FeedResult) = ⟨st1, fs, none⟩ := h
    injection h2 with ha hb hcE
    subst ha
    subst hb
    rfl
  | cons c cs ih =>
    intro st st1 fs b h
    rw [List.cons_append]
    by_cases hc : c = '\r'
    · subst hc
      cases hp : parseFrame st.recv_str with
      | error e2 =>
        rw [serialRecv_cr_error now st cs e2 hp] at h
        have h2 : (⟨⟨0, []⟩, [], some e2⟩ : FeedResult) = ⟨st1, fs, none⟩ := h
        injection h2 with ha hb hcE
        exact absurd hcE (by simp)
      | ok f =>
        rw [serialRecv_cr_ok now st cs f hp] at h
        rw [serialRecv_cr_ok now st (cs ++ b) f hp]
        rcases hr : serialRecvCallback now ⟨0, []⟩ cs with ⟨rs, rf, re⟩
        rw [hr] at h
        simp only [FeedResult.mk.injEq] at h
        obtain ⟨h1, h2, h3⟩ := h
        rw [ih ⟨0, []⟩ rs rf b (by rw [hr, ← h3])]
        subst h1
        subst h2
        rfl
    · rw [serialRecv_cons_ne now st c cs hc] at h
      rw [serialRecv_cons_ne now st c (cs ++ b) hc]
      exact ih _ _ _ _ h

theorem serialRecv_no_cr (now : Nat) :
    ∀ (xs : List Char), '\r' ∉ xs → ∀ (st : SlcanState) (rest : List Char),
      serialRecvCallback now st (xs ++ rest) =
        serialRecvCallback now ⟨st.recv_count + xs.length, st.recv_str ++ xs⟩ rest := by
  intro xs
  induction xs with
  | nil => intro _ st rest; simp
  | cons c cs ih =>
    intro hmem st rest
    rw [List.mem_cons, not_or] at hmem
    obtain ⟨hne, hmem2⟩ := hmem
    rw [List.cons_append]
    rw [serialRecv_cons_ne now st c (cs ++ rest) (fun h => hne h.symm)]
    rw [ih hmem2 ⟨st.recv_count + 1, st.recv_str ++ [c]⟩ rest]
    have hstate : (⟨st.recv_count + 1 + cs.length, st.recv_str ++ [c] ++ cs⟩ :
        SlcanState) = ⟨st.recv_count + (c :: cs).length, st.recv_str ++ (c :: cs)⟩ := by
      simp only [SlcanState.mk.injEq, List.length_cons, List.append_assoc,
        List.singleton_append]
      exact ⟨by omega, trivial⟩
    rw [hstate]

theorem feedChunks_of_join_ok (now : Nat) :
    ∀ (chunks : List (List Char)) (st st1 : SlcanState) (fs : List Frame),
      serialRecvCallback now st chunks.flatten = ⟨st1, fs, none⟩ →
      feedChunks now st chunks = ⟨st1, fs, []⟩ := by
  intro chunks
  induction chunks with
  | nil =>
    intro st st1 fs h
    have h2 : (⟨st, [], none⟩ : FeedResult) = ⟨st1, fs, none⟩ := h
    injection h2 with ha hb hcE
    subst ha
    subst hb
    rfl
  | cons ch rest ih =>
    intro st st1 fs h
    rw [List.flatten_cons] at h
    rcases hr1 : serialRecvCallback now st ch with ⟨s1, f1, e1⟩
    cases e1 with
    | some e =>
      rw [serialRecv_append_err now ch st s1 f1 e rest.flatten hr1] at h
      injection h with ha hb hcE
      exact absurd hcE (by simp)
    | none =>
      rw [serialRecv_append_ok now ch st s1 f1 rest.flatten hr1] at h
      rcases hr2 : serialRecvCallback now s1 rest.flatten with ⟨s2, f2, e2⟩
      rw [hr2] at h
      simp only [FeedResult.mk.injEq] at h
      obtain ⟨rfl, rfl, he2⟩ := h
      have hrest := ih s1 s2 f2 (by rw [hr2, he2])
      simp only [feedChunks, hr1, hrest]
      rfl

/-! ### Claim theorems -/

/-- C1 (counterexample): the round-trip claim fails as stated.  The
extended frame with id 0, dlc 0, empty data satisfies the §3 invariants,
encodes to "T000000000\r", but parsing the terminator-stripped output
yields a frame whose is_ext_id is false (the parser assigns the decoded
flag to the stray property id_ext_id), so the parsed frame is not equal
to the original in every field except timestamp. -/
theorem c1_counterexample :
    packFrame ⟨0, 0, none, [], true, false, none⟩ = some ("T000000000\r".toList) ∧
    ("T000000000\r".toList).dropLast = "T000000000".toList ∧
    parseFrame ("T000000000".toList) = .ok ⟨0, 0, none, [], false, false, some true⟩ ∧
    (⟨0, 0, none, [], false, false, some true⟩ : Frame).is_ext_id ≠
      (⟨0, 0, none, [], true, false, none⟩ : Frame).is_ext_id :=
  ⟨rfl, rfl, rfl, by decide⟩

/-- C1 (amended): round-trip holds for every Frame satisfying the §3
invariants that additionally has is_ext_id = false and data.length = dlc:
parsing the terminator-stripped encoder output yields a frame equal to
the original in id, dlc, data, is_ext_id and is_remote. -/
theorem c1_roundtrip_std (f : Frame) (hext : f.is_ext_id = false)
    (hdlc : f.dlc ≤ 8) (hlen : f.data.length = f.dlc) (hid : f.id ≤ 0x7FF)
    (hb : ∀ b ∈ f.data, b < 256) :
    ∃ packed g, packFrame f = some packed ∧ parseFrame packed.dropLast = .ok g ∧
      g.id = f.id ∧ g.dlc = f.dlc ∧ g.data = f.data ∧
      g.is_ext_id = f.is_ext_id ∧ g.is_remote = f.is_remote := by
  have h163 : (16 : Nat) ^ 3 = 4096 := by norm_num
  have hL : (natToHex f.id).length ≤ 3 :=
    natToHex_length_le f.id 3 (by omega) (by rw [h163]; omega)
  have hplen :
      (List.replicate (3 - (natToHex f.id).length) '0' ++ natToHex f.id).length = 3 := by
    rw [List.length_append, List.length_replicate]
    omega
  have hpval :
      jsNumberHex (List.replicate (3 - (natToHex f.id).length) '0' ++ natToHex f.id) =
        some f.id :=
    jsNumberHex_zeros_hex _ _
  have hpd : packData f.data 0 f.dlc = some ((f.data.map enc2).flatten) := by
    have h0 := packData_all f.data f.dlc 0 (by omega)
    rw [h0, List.drop_zero, ← hlen, List.take_length]
  have hidstr : ("0000000".toList ++ natToHex f.id).drop
      (("0000000".toList ++ natToHex f.id).length - STD_ID_LEN) =
      List.replicate (3 - (natToHex f.id).length) '0' ++ natToHex f.id := by
    rw [show "0000000".toList = List.replicate 7 '0' from rfl]
    rw [List.length_append, List.length_replicate]
    rw [List.drop_append_of_le_length
      (by rw [List.length_replicate]; simp [STD_ID_LEN]; omega)]
    rw [List.drop_replicate]
    have hc : 7 - (7 + (natToHex f.id).length - STD_ID_LEN) =
        3 - (natToHex f.id).length := by
      simp [STD_ID_LEN]
      omega
    rw [hc]
  have hpack : packFrame f = some ((if f.is_remote then 'r' else 't') ::
      ((List.replicate (3 - (natToHex f.id).length) '0' ++ natToHex f.id) ++
       [jsDigitChar f.dlc] ++ (f.data.map enc2).flatten ++ ['\r'])) := by
    unfold packFrame
    rw [hext]
    simp only [Bool.false_eq_true, if_false]
    rw [hpd, hidstr, natToDec_digit f.dlc (by omega)]
    rfl
  have hdl : ((if f.is_remote then 'r' else 't') ::
      ((List.replicate (3 - (natToHex f.id).length) '0' ++ natToHex f.id) ++
       [jsDigitChar f.dlc] ++ (f.data.map enc2).flatten ++ ['\r'])).dropLast =
      (if f.is_remote then 'r' else 't') ::
      ((List.replicate (3 - (natToHex f.id).length) '0' ++ natToHex f.id) ++
       [jsDigitChar f.dlc] ++ (f.data.map enc2).flatten) := by
    rw [← List.cons_append]
    exact List.dropLast_concat
  refine ⟨_, ⟨f.id, f.dlc, none, f.data, false, f.is_remote, some false⟩, hpack,
    ?_, rfl, rfl, rfl, hext.symm, rfl⟩
  rw [hdl]
  exact parseFrame_std_shape f.is_remote _ f.id f.dlc f.data hplen hpval hdlc hlen hb

/-- C1 (witness): the amended round-trip theorem applied to the standard
data frame with id 0x123 and data AB CD. -/
theorem c1_roundtrip_std_witness :
    ∃ packed g,
      packFrame ⟨0x123, 2, none, [0xAB, 0xCD], false, false, none⟩ = some packed ∧
      parseFrame packed.dropLast = .ok g ∧ g.id = 0x123 ∧ g.dlc = 2 ∧
      g.data = [0xAB, 0xCD] ∧ g.is_ext_id = false ∧ g.is_remote = false :=
  c1_roundtrip_std ⟨0x123, 2, none, [0xAB, 0xCD], false, false, none⟩ rfl
    (by decide) (by decide) (by decide) (by decide)

/-- C2 (counterexample): parsing the terminator-stripped remote command
"r1235" does not succeed with empty data as the claim states; the data
loop runs for remote frames as well, reads past the end of the string and
fails with InvalidDataByte 0. -/
theorem c2_counterexample :
    parseFrame ("r1235".toList) = .error (.InvalidDataByte 0) := rfl

/-- C2 (amended): remote-frame commands consume data-byte characters
exactly like data frames: a command with leading character r parses
precisely like the corresponding t command, with is_remote set. -/
theorem c2_remote_reads_data (s : List Char) (f : Frame)
    (h : parseFrame ('t' :: s) = .ok f) :
    parseFrame ('r' :: s) = .ok { f with is_remote := true } := by
  obtain ⟨idv, hid, hdlc, h8, hrd, hf⟩ := parseFrame_inv ('t' :: s) false false f rfl h
  have hid2 : jsNumberHex (substr ('r' :: s) 1
      (if false then EXT_ID_LEN else STD_ID_LEN)) = some idv := hid
  have hdlc2 : jsDlcVal (substr ('r' :: s)
      (1 + (if false then EXT_ID_LEN else STD_ID_LEN)) 1).head? = some f.dlc := hdlc
  have hrd2 : readData ('r' :: s) (if false then EXT_ID_LEN else STD_ID_LEN) 0
      f.dlc = .ok f.data := by
    rw [readData_cons_eq 'r' 't' s _]
    exact hrd
  rw [hf]
  exact parseFrame_build ('r' :: s) false true idv f.dlc f.data rfl hid2 hdlc2 h8 hrd2

/-- C2 (witness): the amended theorem applied to the command body 1230:
r1230 parses like t1230 with is_remote true. -/
theorem c2_remote_reads_data_witness :
    parseFrame ('r' :: "1230".toList) =
      .ok ⟨0x123, 0, none, [], false, true, some false⟩ :=
  c2_remote_reads_data ("1230".toList) ⟨0x123, 0, none, [], false, false, some false⟩ rfl

/-- C3 (counterexample): encoding is not total over well-formed frames.
The remote frame with dlc 5 and empty data satisfies the §3 invariants
(for a remote frame data may be empty), yet the encoder's data loop reads
frame.data at indices 0..4 and throws, modelled as none. -/
theorem c3_counterexample :
    packFrame ⟨0x123, 5, none, [], false, true, none⟩ = none := rfl

/-- C3 (amended): encoding returns a string exactly when the frame's data
has at least dlc entries; the encoder appends data bytes for remote
frames just like data frames, so a remote frame with dlc greater than
data.length throws instead of returning a string. -/
theorem c3_encode_total (f : Frame) (h : f.dlc ≤ f.data.length) :
    ∃ s, packFrame f = some s := by
  have h0 := packData_all f.data f.dlc 0 (by omega)
  unfold packFrame
  rw [h0]
  exact ⟨_, rfl⟩

/-- C3 (witness): the amended totality theorem applied to a remote frame
carrying two data bytes. -/
theorem c3_encode_total_witness :
    ∃ s, packFrame ⟨0x123, 2, none, [0xAB, 0xCD], false, true, none⟩ = some s :=
  c3_encode_total ⟨0x123, 2, none, [0xAB, 0xCD], false, true, none⟩ (by decide)

/-- C4 (counterexample): a malformed command immediately followed by a
valid command in the same receive call yields zero callback invocations,
not one: the parse exception aborts the loop before the valid command's
bytes are processed. -/
theorem c4_counterexample :
    serialRecvCallback 0 initState ("X\rt1230\r".toList) =
      ⟨initState, [], some .InvalidFrameType⟩ ∧
    parseFrame ("t1230".toList) = .ok ⟨0x123, 0, none, [], false, false, some false⟩ :=
  ⟨rfl, rfl⟩

/-- C4 (amended): when the malformed command (through its terminator) and
the valid command arrive in separate receive calls, the decoder discards
the malformed buffer, surfaces the error with no callback, and the valid
command then yields exactly one callback with the parsed, timestamped
frame. -/
theorem c4_fault_isolation_separate_calls (n1 n2 : Nat) (bad good : List Char)
    (e : ParseError) (f : Frame) (hbad : '\r' ∉ bad) (hgood : '\r' ∉ good)
    (hpb : parseFrame bad = .error e) (hpg : parseFrame good = .ok f) :
    serialRecvCallback n1 initState (bad ++ ['\r']) = ⟨initState, [], some e⟩ ∧
    serialRecvCallback n2 initState (good ++ ['\r']) =
      ⟨initState, [{ f with timestamp := some n2 }], none⟩ := by
  constructor
  · rw [serialRecv_no_cr n1 bad hbad initState ['\r']]
    rw [serialRecv_cr_error n1
      ⟨initState.recv_count + bad.length, initState.recv_str ++ bad⟩ [] e hpb]
    rfl
  · rw [serialRecv_no_cr n2 good hgood initState ['\r']]
    rw [serialRecv_cr_ok n2
      ⟨initState.recv_count + good.length, initState.recv_str ++ good⟩ [] f hpg]
    rfl

/-- C4 (witness): the amended theorem applied to the malformed command X
fed in one call and the valid command t1230 fed in the next call. -/
theorem c4_fault_isolation_separate_calls_witness :
    serialRecvCallback 0 initState ("X\r".toList) =
      ⟨initState, [], some .InvalidFrameType⟩ ∧
    serialRecvCallback 1 initState ("t1230\r".toList) =
      ⟨initState, [⟨0x123, 0, some 1, [], false, false, some false⟩], none⟩ :=
  c4_fault_isolation_separate_calls 0 1 ['X'] ("t1230".toList)
    .InvalidFrameType ⟨0x123, 0, none, [], false, false, some false⟩
    (by decide) (by decide) rfl rfl

/-- C5: chunk-boundary invariance.  If feeding a byte sequence in a single
receive call yields exactly one parsed frame and no error, then feeding
the same bytes split at any chunk boundaries yields the same final state,
the same single callback with the same frame, and no error. -/
theorem c5_chunk_invariance (now : Nat) (chunks : List (List Char))
    (st1 : SlcanState) (f : Frame)
    (h : serialRecvCallback now initState chunks.flatten = ⟨st1, [f], none⟩) :
    feedChunks now initState chunks = ⟨st1, [f], []⟩ :=
  feedChunks_of_join_ok now chunks initState st1 [f] h

/-- C5 (witness): the command t1230 followed by the terminator, split into
the chunks t12 and 30 CR, yields the same single frame as one call. -/
theorem c5_chunk_invariance_witness :
    feedChunks 7 initState ["t12".toList, "30\r".toList] =
      ⟨initState, [⟨0x123, 0, some 7, [], false, false, some false⟩], []⟩ :=
  c5_chunk_invariance 7 ["t12".toList, "30\r".toList] initState
    ⟨0x123, 0, some 7, [], false, false, some false⟩ rfl

/-- C6 (code bug): a command with leading character T parses successfully
but the resulting frame's is_ext_id field is false, not true: the source
assigns the decoded flag to the misspelled property id_ext_id (line 268)
and leaves the documented is_ext_id property at its constructor default.
The parser leaves timestamp unset and the stream decoder stamps it. -/
theorem c6_ext_id_lost :
    parseFrame ("T000000010".toList) =
      .ok ⟨1, 0, none, [], false, false, some true⟩ ∧
    serialRecvCallback 5 initState ("T000000010\r".toList) =
      ⟨initState, [⟨1, 0, some 5, [], false, false, some true⟩], none⟩ :=
  ⟨rfl, rfl⟩

/-- C7 (counterexample): a standard-frame command whose identifier value
exceeds 0x7FF parses successfully instead of failing: t8000 yields id
0x800 with dlc 0; no 11-bit range check is applied on decode. -/
theorem c7_counterexample :
    parseFrame ("t8000".toList) = .ok ⟨0x800, 0, none, [], false, false, some false⟩ ∧
    0x7FF < (0x800 : Nat) :=
  ⟨rfl, by decide⟩

/-- C7 (amended): parsing fails with InvalidIdentifier exactly when the
JavaScript hex conversion of the identifier substring is NaN (a non-hex
character, or no digits at all); in particular tXYZ2ABCD fails with
InvalidIdentifier, while an incomplete all-hex identifier field such as
t12 parses with its shorter value and no range check is applied. -/
theorem c7_identifier_validation :
    (∀ (s : List Char) (ext rem : Bool),
        frameTypeOf s.head? = some (ext, rem) →
        jsNumberHex (substr s 1 (if ext then EXT_ID_LEN else STD_ID_LEN)) = none →
        parseFrame s = .error .InvalidIdentifier) ∧
    parseFrame ("tXYZ2ABCD".toList) = .error .InvalidIdentifier ∧
    parseFrame ("t12".toList) = .ok ⟨0x12, 0, none, [], false, false, some false⟩ := by
  refine ⟨?_, rfl, rfl⟩
  intro s ext rem h1 h2
  unfold parseFrame
  rw [h1]
  simp only [h2]

/-- C7 (witness): the general rejection direction applied to the command
tXY22, whose identifier field XY2 contains the non-hex character X. -/
theorem c7_identifier_validation_witness :
    parseFrame ("tXY22".toList) = .error .InvalidIdentifier :=
  c7_identifier_validation.1 ("tXY22".toList) false false rfl (by decide)

/-- C8 (counterexample): a command with a missing DLC character does not
fail with InvalidDlc as the claim states; JavaScript converts the empty
substring to 0, so t123 parses with dlc 0. -/
theorem c8_counterexample :
    parseFrame ("t123".toList) = .ok ⟨0x123, 0, none, [], false, false, some false⟩ := rfl

/-- C8 (amended): given a valid type character and identifier, parsing
fails with InvalidDlc exactly when the DLC character converts to NaN
(present, not whitespace, not a decimal digit) or to a value above 8;
a missing or whitespace DLC character is coerced to 0.  DLC 0 and DLC 8
parse correctly and DLC 9 fails with InvalidDlc. -/
theorem c8_dlc_validation :
    (∀ (s : List Char) (ext rem : Bool) (idv : Nat),
        frameTypeOf s.head? = some (ext, rem) →
        jsNumberHex (substr s 1 (if ext then EXT_ID_LEN else STD_ID_LEN)) =
          some idv →
        (parseFrame s = .error .InvalidDlc ↔
          jsDlcVal (substr s (1 + (if ext then EXT_ID_LEN else STD_ID_LEN))
              1).head? = none ∨
          ∃ d, jsDlcVal (substr s (1 + (if ext then EXT_ID_LEN else STD_ID_LEN))
              1).head? = some d ∧ 8 < d)) ∧
    parseFrame ("t1230".toList) = .ok ⟨0x123, 0, none, [], false, false, some false⟩ ∧
    parseFrame ("t12380011223344556677".toList) =
      .ok ⟨0x123, 8, none, [0x00, 0x11, 0x22, 0x33, 0x44, 0x55, 0x66, 0x77],
        false, false, some false⟩ ∧
    parseFrame ("t1239".toList) = .error .InvalidDlc ∧
    parseFrame ("t123 ".toList) = .ok ⟨0x123, 0, none, [], false, false, some false⟩ := by
  refine ⟨?_, rfl, rfl, rfl, rfl⟩
  intro s ext rem idv h1 h2
  unfold parseFrame
  rw [h1]
  simp only [h2]
  constructor
  · intro hp
    split at hp
    · rename_i hd
      exact Or.inl hd
    · rename_i d hd
      split at hp
      · rename_i h8
        exact Or.inr ⟨d, hd, h8⟩
      · split at hp
        · rename_i e hrd
          injection hp with he
          rw [he] at hrd
          exact absurd hrd
            (readData_ne_invalidDlc s (if ext then EXT_ID_LEN else STD_ID_LEN) d 0)
        · exact absurd hp (by simp)
  · intro hor
    rcases hor with hd | ⟨d, hd, h8⟩
    · simp only [hd]
    · simp only [hd, if_pos h8]

/-- C8 (witness): the amended characterisation applied to t123z, whose
DLC character z is neither a digit nor whitespace. -/
theorem c8_dlc_validation_witness :
    parseFrame ("t123z".toList) = .error .InvalidDlc :=
  (c8_dlc_validation.1 ("t123z".toList) false false 0x123 rfl rfl).mpr
    (Or.inl (by decide))

/-- C9 (counterexample): encoding the extended frame with id 0x1ABCDEF and
dlc 0 does not return the string T001ABCDEF0 CR claimed by the spec: the
identifier field is eight hex characters and lowercase. -/
theorem c9_counterexample :
    packFrame ⟨0x1ABCDEF, 0, none, [], true, false, none⟩ ≠
      some ("T001ABCDEF0\r".toList) := by decide

/-- C9 (amended): encoding that extended frame returns exactly the string
T01abcdef0 CR: the identifier is rendered as eight lowercase hexadecimal
characters. -/
theorem c9_encode_ext :
    packFrame ⟨0x1ABCDEF, 0, none, [], true, false, none⟩ =
      some ("T01abcdef0\r".toList) := rfl

/-- C10 (counterexample): appending a character to a successfully parsed
command that is at least the claim's required length does not always
preserve the parse: the remote command r1232222 (length 8, required
length 5 for a remote frame under the claim) parses with data [22, 2],
but appending 4 changes the second data byte to 24. -/
theorem c10_counterexample :
    parseFrame ("r1232222".toList) =
      .ok ⟨0x123, 2, none, [0x22, 0x2], false, true, some false⟩ ∧
    5 ≤ ("r1232222".toList).length ∧
    parseFrame ("r1232222".toList ++ "4".toList) =
      .ok ⟨0x123, 2, none, [0x22, 0x24], false, true, some false⟩ ∧
    (⟨0x123, 2, none, [0x22, 0x2], false, true, some false⟩ : Frame) ≠
      ⟨0x123, 2, none, [0x22, 0x24], false, true, some false⟩ :=
  ⟨rfl, by decide, rfl, by decide⟩

/-- C10 (amended): the parser reads only fixed positions below
2 + idLen + 2*dlc for every frame, remote frames included (the data loop
is not guarded on is_remote).  If a command parses successfully and is at
least that long, appending arbitrary trailing characters preserves the
parse result. -/
theorem c10_fixed_positions (s extra : List Char) (f : Frame) (ext rem : Bool)
    (hc : frameTypeOf s.head? = some (ext, rem))
    (h : parseFrame s = .ok f)
    (hlen : 2 + (if ext then EXT_ID_LEN else STD_ID_LEN) + 2 * f.dlc ≤ s.length) :
    parseFrame (s ++ extra) = .ok f := by
  obtain ⟨idv, hid, hdlc, h8, hrd, hf⟩ := parseFrame_inv s ext rem f hc h
  have hn : (if ext then EXT_ID_LEN else STD_ID_LEN) = 8 ∨
      (if ext then EXT_ID_LEN else STD_ID_LEN) = 3 := by
    cases ext
    · right; rfl
    · left; rfl
  have hhead : (s ++ extra).head? = s.head? := by
    cases s with
    | nil => simp [frameTypeOf] at hc
    | cons c cs => rfl
  have hid2 : jsNumberHex (substr (s ++ extra) 1
      (if ext then EXT_ID_LEN else STD_ID_LEN)) = some idv := by
    rw [substr_append_of_le s extra 1 _ (by rcases hn with h8' | h3 <;> omega)]
    exact hid
  have hdlc2 : jsDlcVal (substr (s ++ extra)
      (1 + (if ext then EXT_ID_LEN else STD_ID_LEN)) 1).head? = some f.dlc := by
    rw [substr_append_of_le s extra _ 1 (by rcases hn with h8' | h3 <;> omega)]
    exact hdlc
  have hrd2 : readData (s ++ extra) (if ext then EXT_ID_LEN else STD_ID_LEN) 0
      f.dlc = .ok f.data := by
    rw [readData_append s extra _ f.dlc 0 (by rcases hn with h8' | h3 <;> omega)]
    exact hrd
  rw [hf]
  exact parseFrame_build (s ++ extra) ext rem idv f.dlc f.data
    (by rw [hhead]; exact hc) hid2 hdlc2 h8 hrd2

/-- C10 (witness): the amended theorem applied to t1232ABCD (length 9,
exactly 2 + 3 + 2*2) with the junk suffix ZZZ appended. -/
theorem c10_fixed_positions_witness :
    parseFrame ("t1232ABCD".toList ++ "ZZZ".toList) =
      .ok ⟨0x123, 2, none, [0xAB, 0xCD], false, false, some false⟩ :=
  c10_fixed_positions ("t1232ABCD".toList) ("ZZZ".toList)
    ⟨0x123, 2, none, [0xAB, 0xCD], false, false, some false⟩ false false
    rfl rfl (by decide)

end Canbus
